import Mathlib

/-!
Verification of the multi-hop retrieval orchestrator of a maintenance RAG
backend.  The definitions below are a shallow embedding of the Python source
under `backend/app/rag/` (`chain.py`, `agent.py`) and `backend/app/core/config.py`:
pure fragments become Lean functions, the mutable global document store becomes
explicit state passing, exceptions become `Except`.  The Generator (LLM) and
Retriever (vector store) are external collaborators and are modelled as
function parameters.
-/

set_option autoImplicit false

namespace MaintRag

/-- Python slicing `s[:n]`, by characters.  (Lean's own `String.take` is
byte-position based and does not reduce in the kernel; this is the same
function written on the underlying character list.) -/
def str_take (s : String) (n : Nat) : String := String.mk (s.data.take n)

/-- Python's default whitespace class for `str.strip()`. -/
def is_py_space (c : Char) : Bool :=
  c == ' ' || c == '\t' || c == '\n' || c == '\r' || c == '\x0b' || c == '\x0c'

/-- Python `str.strip()`: drop leading and trailing whitespace. -/
def py_strip (s : String) : String :=
  String.mk (((s.data.dropWhile is_py_space).reverse.dropWhile is_py_space).reverse)

/-- Helper for `split('\n')`: accumulate the current piece (reversed). -/
def split_nl_aux : List Char → List Char → List String
  | [], acc => [String.mk acc.reverse]
  | c :: rest, acc =>
    if c == '\n' then String.mk acc.reverse :: split_nl_aux rest []
    else split_nl_aux rest (c :: acc)

/-- Python `s.split('\n')`: cut at every newline, keeping empty pieces. -/
def py_split_nl (s : String) : List String := split_nl_aux s.data []

/-- A retrieved chunk as returned by the Retriever (a langchain `Document`):
page text plus the metadata fields that the code reads
(`source`, `page`, `chapter`, `section`, `chunk_index`, `total_chunks`, `score`).
The Python code converts a missing `page` (its `"N/A"` default) to `None`, so
`page` is modelled directly as an option. -/
structure Doc where
  page_content : String
  source : String
  page : Option Int
  chapter : Option String
  sect : Option String
  chunk_index : Option Int
  total_chunks : Option Int
  score : Option Rat
deriving Repr, DecidableEq

/-! ## Query Expander — `chain.py`, `expand_query` (lines 50-83) -/

/-- Embedding of `expand_query` (chain.py 50-83).  The generation call
`chain.ainvoke({"question": question})` is modelled by its outcome
`genResult`: `.ok text` when the Generator returned `text`, `.error e` when it
raised.  The `try/except` around the whole body means a raised generation
never escapes: the function returns `[question]` instead.
On success the code computes
`expanded = [q.strip() for q in result.strip().split('\n') if q.strip()]`
and returns `[question] + expanded[:3]`. -/
def expand_query (genResult : Except String String) (question : String) : List String :=
  match genResult with
  | .error _ => [question]
  | .ok result =>
    let expanded := ((py_split_nl (py_strip result)).map py_strip).filter (fun q => q ≠ "")
    question :: expanded.take 3

/-! ## Retrieval Aggregator — `chain.py`, `retrieve_with_expansion` (lines 86-124) -/

/-- The content-hash used for aggregator deduplication:
`hash(doc.page_content[:500])` (chain.py line 118).  Python's string hash is
modelled as the 500-character prefix itself, i.e. as an injective hash — two
contents collide exactly when their first 500 characters agree. -/
def content_hash (s : String) : String := str_take s 500

/-- The inner dedup loop of `retrieve_with_expansion` (chain.py 114-121):
walk the retrieved documents in arrival order, keep a document only when the
content hash of its text was not seen before. -/
def dedup_by_content_hash : List Doc → List String → List Doc
  | [], _ => []
  | d :: rest, seen =>
    if content_hash d.page_content ∈ seen then
      dedup_by_content_hash rest seen
    else
      d :: dedup_by_content_hash rest (content_hash d.page_content :: seen)

/-- Embedding of `retrieve_with_expansion` (chain.py 86-124): expand the question, retrieve
per query, merge in first-seen order deduplicating by content hash, then
truncate to `k * 2` documents (`all_docs[:k * 2]`, line 124). -/
def retrieve_with_expansion (retriever : String → List Doc)
    (genResult : Except String String) (question : String) (k : Nat) : List Doc :=
  let queries := expand_query genResult question
  let all_docs := dedup_by_content_hash (queries.flatMap retriever) []
  all_docs.take (k * 2)

/-! ## Agent Orchestrator — `agent.py` -/

/-- Message roles of the langchain message classes used by the code:
`HumanMessage`, `AIMessage`, `ToolMessage`. -/
inductive Role where
  | user
  | assistant
  | tool
deriving Repr, DecidableEq

/-- A tool call carried by an `AIMessage`: the code reads
`tool_call.get("name")` and `tool_call.get("args", {}).get("query", "")`,
so a call is modelled as its name plus the `query` argument (defaulted to
the empty string when absent, exactly as the `get` default does). -/
structure ToolCall where
  name : String
  query : String
deriving Repr, DecidableEq

/-- A conversation message.  `tool_calls` is meaningful only on assistant
messages (langchain `AIMessage.tool_calls`, default `[]`). -/
structure Message where
  role : Role
  content : String
  tool_calls : List ToolCall := []
deriving Repr, DecidableEq

/-- Model of `hasattr(msg, "tool_calls")`: in langchain, `AIMessage` always defines a
`tool_calls` attribute (defaulting to `[]`), while `HumanMessage` and
`ToolMessage` do not define it.  So the attribute test is exactly the test
for an assistant message. -/
def has_tool_calls_attr (m : Message) : Bool := m.role == .assistant

/-- An entry of the module-level `_retrieved_documents_store` (agent.py
124-133): preview content, full metadata, and the query that retrieved it. -/
structure DocEntry where
  content : String
  source : String
  page : Option Int
  chapter : Option String
  sect : Option String
  chunk_index : Option Int
  total_chunks : Option Int
  query : String
deriving Repr, DecidableEq

/-- The store entry built for a retrieved document (agent.py 113-133):
content truncated to 1500 characters, metadata copied over. -/
def doc_entry_of (query : String) (d : Doc) : DocEntry :=
  { content := str_take d.page_content 1500
    source := d.source
    page := d.page
    chapter := d.chapter
    sect := d.sect
    chunk_index := d.chunk_index
    total_chunks := d.total_chunks
    query := query }

/-- The duplicate test of agent.py 136-139: an entry is a duplicate when some
stored entry agrees on `source`, `page` and `chunk_index`. -/
def is_duplicate (store : List DocEntry) (e : DocEntry) : Bool :=
  store.any fun d => d.source == e.source && d.page == e.page && d.chunk_index == e.chunk_index

/-- The guarded append `if not is_duplicate: _retrieved_documents_store.append(doc_entry)`
(agent.py 140-141). -/
def store_add (store : List DocEntry) (e : DocEntry) : List DocEntry :=
  if is_duplicate store e then store else store ++ [e]

/-- Rendering of `doc.metadata.get("page", "N/A")` in the result header. -/
def page_display : Option Int → String
  | none => "N/A"
  | some n => toString n

/-- The per-document result block of agent.py 143-148. -/
def doc_result_block (i : Nat) (d : Doc) : String :=
  "[Document " ++ toString i ++ "]\n" ++
  "Source: " ++ d.source ++ " (Page " ++ page_display d.page ++ ")\n" ++
  "Content:\n" ++ str_take d.page_content 1500 ++ "\n---"

/-- Embedding of `search_maintenance_docs` (agent.py 84-150), with the global
`_retrieved_documents_store` passed explicitly.  Returns the updated store and
the formatted text returned to the Generator.  An empty retrieval returns the
fixed sentence and leaves the store untouched (agent.py 108-109); otherwise
every non-duplicate entry is appended and every document is formatted
(duplicates are still formatted — only the store append is guarded). -/
def search_maintenance_docs (retriever : String → List Doc)
    (store : List DocEntry) (query : String) : List DocEntry × String :=
  let docs := retriever query
  if docs.isEmpty then
    (store, "No relevant documents found for this query.")
  else
    let store' := docs.foldl (fun st d => store_add st (doc_entry_of query d)) store
    let results := (docs.enumFrom 1).map fun p => doc_result_block p.1 p.2
    (store', String.intercalate "\n\n" results)

/-- The `AgentState` schema (agent.py 31-44).  `messages` accumulates by concatenation
(`operator.add`); `iteration_count` is a non-negative int. -/
structure AgentState where
  messages : List Message
  original_question : String
  retrieved_documents : List DocEntry
  executed_queries : List String
  iteration_count : Nat
  final_answer : Option String
deriving Repr, DecidableEq

/-- Embedding of `should_continue` (agent.py 241-273), deciding between `"tools"` and
`"end"`:
1. no `tool_calls` attribute, or no tool calls, on `messages[-1]` → `"end"`;
2. `iteration_count >= max_iterations` → `"end"`;
3. some requested `search_maintenance_docs` query already in
   `executed_queries` → `"end"` (loop detection);
4. otherwise `"tools"`.
An empty message list would make `messages[-1]` raise; the graph entry always
appends the Generator turn first, so that case is modelled as `"end"`. -/
def should_continue (max_iterations : Nat) (state : AgentState) : String :=
  match state.messages.getLast? with
  | none => "end"
  | some last =>
    if !has_tool_calls_attr last || last.tool_calls.isEmpty then "end"
    else if decide (max_iterations ≤ state.iteration_count) then "end"
    else if last.tool_calls.any (fun tc =>
        tc.name == "search_maintenance_docs" && state.executed_queries.contains tc.query) then "end"
    else "tools"

/-- Embedding of `update_state_after_tools` (agent.py 282-305): find the most recent
message with tool calls, append each non-empty `search_maintenance_docs`
query not yet present in `executed_queries`, and increment
`iteration_count`. -/
def update_state_after_tools (state : AgentState) : AgentState :=
  let queries :=
    match state.messages.reverse.find? (fun m => has_tool_calls_attr m && !m.tool_calls.isEmpty) with
    | none => state.executed_queries
    | some msg =>
      msg.tool_calls.foldl (fun acc tc =>
        if tc.name == "search_maintenance_docs" && tc.query != "" && !acc.contains tc.query then
          acc ++ [tc.query]
        else acc) state.executed_queries
  { state with
    executed_queries := queries
    iteration_count := state.iteration_count + 1 }

/-- The `ToolNode` (agent.py 276-279): execute each tool call of the last
message, appending one tool message per call; `search_maintenance_docs`
calls run the retrieval tool against the shared store, any other name yields
an error tool message (langgraph's unknown-tool handling). -/
def tool_node (retriever : String → List Doc) (store : List DocEntry)
    (calls : List ToolCall) : List DocEntry × List Message :=
  calls.foldl (fun acc tc =>
    if tc.name == "search_maintenance_docs" then
      let r := search_maintenance_docs retriever acc.1 tc.query
      (r.1, acc.2 ++ [Message.mk .tool r.2 []])
    else
      (acc.1, acc.2 ++ [Message.mk .tool ("Error: " ++ tc.name ++ " is not a valid tool.") []]))
    (store, [])

/-- Error taxonomy at the orchestrator boundary (spec §7).  The code in
`agent.py` contains no `raise` statement: the only failures that can escape
`query_rag_agent` are exceptions propagated from the Generator call inside the
agent node.  The `orchestration` constructor exists so the spec's
`OrchestrationError` can be talked about; the embedded code never produces
it. -/
inductive RagError where
  | generation (msg : String)
  | orchestration (msg : String)
deriving Repr, DecidableEq

/-- Ghost observation of one Retriever invocation made through the search
tool: the query issued and the `executed_queries` list at the moment the
call was issued.  (Instrumentation only — carried alongside the run, never
read by the embedded code.) -/
structure SearchCall where
  query : String
  executed_before : List String
deriving Repr, DecidableEq

/-- One Generator turn: the returned `AIMessage`, as content plus tool
calls.  A raised generation is `.error msg`. -/
def GenTurn := List Message → Except String (String × List ToolCall)

/-- The compiled graph loop (agent.py 312-364):
`agent → should_continue → tools → update_state → agent`.  Each round invokes
the Generator, appends its assistant message, and either stops (`"end"`) or
executes the turn's tool calls, appends the tool messages, updates
bookkeeping, and loops.  `fuel` bounds the recursion; since `"tools"` requires
`iteration_count < max_iterations` and every round increments the count, fuel
`max_iterations + 1` is never exhausted.  The `ToolNode` reads
`messages[-1].tool_calls`, which is exactly the turn just appended. -/
def agent_loop (gen : GenTurn) (retriever : String → List Doc) (max_iterations : Nat) :
    Nat → AgentState → List DocEntry → List SearchCall →
    Except RagError (AgentState × List DocEntry) × List SearchCall
  | 0, state, store, log => (.ok (state, store), log)
  | fuel + 1, state, store, log =>
    match gen state.messages with
    | .error e => (.error (RagError.generation e), log)
    | .ok turn =>
      let state1 := { state with messages := state.messages ++ [Message.mk .assistant turn.1 turn.2] }
      if should_continue max_iterations state1 = "tools" then
        let log1 := log ++ (turn.2.filter (fun tc => tc.name == "search_maintenance_docs")).map
          (fun tc => SearchCall.mk tc.query state1.executed_queries)
        let r := tool_node retriever store turn.2
        let state2 := { state1 with messages := state1.messages ++ r.2 }
        agent_loop gen retriever max_iterations fuel (update_state_after_tools state2) r.1 log1
      else
        (.ok (state1, store), log)

/-- Conversion of `chat_history` (agent.py 400-405): `user`/`assistant` entries
become messages, other roles are skipped. -/
def history_messages (history : List (String × String)) : List Message :=
  history.foldl (fun acc p =>
    if p.1 == "user" then acc ++ [Message.mk .user p.2 []]
    else if p.1 == "assistant" then acc ++ [Message.mk .assistant p.2 []]
    else acc) []

/-- Final-answer extraction (agent.py 426-440).  First scan the transcript
backwards for an `AIMessage` without tool calls (the first `isinstance ∧ not
hasattr` branch never fires because `AIMessage` always has the attribute);
then, if the answer is still falsy (not found, or found with empty content),
fall back to the most recent `AIMessage` of any kind, else keep `""`. -/
def extract_answer (ms : List Message) : String :=
  let primary :=
    ((ms.reverse.find? fun m =>
        (m.role == .assistant && !has_tool_calls_attr m) ||
        (m.role == .assistant && has_tool_calls_attr m && m.tool_calls.isEmpty)).map
      Message.content).getD ""
  if primary ≠ "" then primary
  else ((ms.reverse.find? fun m => m.role == .assistant).map Message.content).getD ""

/-- A user-facing source record (agent.py 452-460). -/
structure SourceRecord where
  document : String
  page : Option Int
  chapter : Option String
  sect : Option String
  chunk_index : Option Int
  total_chunks : Option Int
  content : String
deriving Repr, DecidableEq

/-- Python `str(...)` of an optional int, as used inside the f-string key. -/
def py_str_opt_int : Option Int → String
  | none => "None"
  | some n => toString n

/-- The key string `source_key = f"{doc['source']}_{doc.get('page')}_{doc.get('chunk_index')}"`
(agent.py 449). -/
def source_key (e : DocEntry) : String :=
  e.source ++ "_" ++ py_str_opt_int e.page ++ "_" ++ py_str_opt_int e.chunk_index

/-- The source record built from a store entry (agent.py 452-460). -/
def source_record_of (e : DocEntry) : SourceRecord :=
  { document := e.source
    page := e.page
    chapter := e.chapter
    sect := e.sect
    chunk_index := e.chunk_index
    total_chunks := e.total_chunks
    content := e.content }

/-- Final source assembly (agent.py 446-460): walk the store, skipping
entries whose `source_key` string was already seen. -/
def build_sources (store : List DocEntry) : List SourceRecord :=
  (store.foldl (fun (acc : List String × List SourceRecord) e =>
    if acc.1.contains (source_key e) then acc
    else (source_key e :: acc.1, acc.2 ++ [source_record_of e])) ([], [])).2

/-- The result dict of `query_rag_agent` (agent.py 462-467). -/
structure AgentResult where
  answer : String
  sources : List SourceRecord
  iterations : Nat
  queries_executed : List String
deriving Repr, DecidableEq

/-- The `agent.ainvoke(initial_state)` part of `query_rag_agent`
(agent.py 393-422): clear the store, build the initial messages from the
chat history plus the question, and run the compiled graph.  Returns the
final state and store (or the propagated Generator exception) together with
the ghost retrieval log. -/
def run_agent_graph (gen : GenTurn) (retriever : String → List Doc)
    (max_iterations : Nat) (question : String) (history : List (String × String)) :
    Except RagError (AgentState × List DocEntry) × List SearchCall :=
  let msgs := history_messages history ++ [Message.mk .user question []]
  let init : AgentState :=
    { messages := msgs
      original_question := question
      retrieved_documents := []
      executed_queries := []
      iteration_count := 0
      final_answer := none }
  agent_loop gen retriever max_iterations (max_iterations + 1) init [] []

/-- Embedding of `query_rag_agent` (agent.py 371-467): run the graph, extract the final
answer from the transcript, and assemble the deduplicated source list,
iteration count and executed queries. -/
def query_rag_agent (gen : GenTurn) (retriever : String → List Doc)
    (max_iterations : Nat) (question : String) (history : List (String × String)) :
    Except RagError AgentResult × List SearchCall :=
  match run_agent_graph gen retriever max_iterations question history with
  | (.error e, log) => (.error e, log)
  | (.ok fs, log) =>
    (.ok { answer := extract_answer fs.1.messages
           sources := build_sources fs.2
           iterations := fs.1.iteration_count
           queries_executed := fs.1.executed_queries }, log)

/-- Default of `settings.MAX_AGENT_ITERATIONS` (config.py line 53). -/
def MAX_AGENT_ITERATIONS : Nat := 5

/-- Default of `settings.USE_AGENTIC_RAG` (config.py line 52). -/
def USE_AGENTIC_RAG_default : Bool := true

/-! ## Progress Stream Emitter — `chain.py`, `query_rag_stream` (lines 376-561) -/

/-- A source dict of the streaming/legacy response (chain.py 535-546). -/
structure StreamSource where
  content : String
  source : String
  page : Option Int
  chapter : Option String
  sect : Option String
  chunk_index : Option Int
  total_chunks : Option Int
  relevance_score : Option Rat
deriving Repr, DecidableEq

/-- chain.py 535-546 / 347-359: the response source dict for a document. -/
def stream_source_of (d : Doc) : StreamSource :=
  { content := str_take d.page_content 1500
    source := d.source
    page := d.page
    chapter := d.chapter
    sect := d.sect
    chunk_index := d.chunk_index
    total_chunks := d.total_chunks
    relevance_score := d.score }

/-- A server-sent event, by kind; `status` keeps its `step` and `message`
payload fields (the extra `query`/`index` keys do not affect any claim). -/
inductive StreamEvent where
  | status (step message : String)
  | token (text : String)
  | sources (payload : List StreamSource)
  | metadata (mode : String) (iterations : Nat) (queries_executed : List String)
  | done
deriving Repr, DecidableEq

def is_status : StreamEvent → Bool
  | .status _ _ => true
  | _ => false

def is_token : StreamEvent → Bool
  | .token _ => true
  | _ => false

/-- Recognizers for `done`, `sources` and `metadata` events, to count them. -/
def is_done : StreamEvent → Bool
  | .done => true
  | _ => false

def is_sources : StreamEvent → Bool
  | .sources _ => true
  | _ => false

def is_metadata : StreamEvent → Bool
  | .metadata _ _ _ => true
  | _ => false

/-- The spec's event-ordering regex `status* token* sources metadata done`:
strip leading `status` events, then leading `token` events, and require the
remainder to be exactly one `sources`, one `metadata`, one `done`. -/
def stream_pattern_ok (evs : List StreamEvent) : Bool :=
  match (evs.dropWhile is_status).dropWhile is_token with
  | [.sources _, .metadata _ _ _, .done] => true
  | _ => false

/-- Configuration read by `query_rag_stream`: `settings.USE_AGENTIC_RAG` and
whether `langgraph` is importable. -/
structure StreamConfig where
  use_agentic_rag : Bool
  langgraph_available : Bool
deriving Repr, DecidableEq

/-- Embedding of `is_agentic_rag_available` (agent.py 470-485): enabled and importable. -/
def is_agentic_rag_available (cfg : StreamConfig) : Bool :=
  cfg.use_agentic_rag && cfg.langgraph_available

/-- The module `agent.py` defines `clear_retrieved_documents`, `get_retrieved_documents`,
`create_retrieval_tool`, `create_agent_node`, `should_continue`,
`create_tool_node`, `update_state_after_tools`, `create_rag_agent`,
`query_rag_agent` and `is_agentic_rag_available` — and no
`run_agentic_retrieval_streaming`.  The statement
`from app.rag.agent import run_agentic_retrieval_streaming`
(chain.py line 420) therefore raises `ImportError` when executed. -/
def agent_module_defines_streaming_fn : Bool := false

/-- How a streaming run ends: the generator ran to completion, or it raised
(`ImportError` from the missing import on the agentic path). -/
inductive StreamOutcome where
  | completed
  | importError (name : String)
deriving Repr, DecidableEq

/-- Truncation `short_query = query[:50] + "..." if len(query) > 50 else query`
(chain.py 468). -/
def short_query (q : String) : String :=
  if decide (50 < q.length) then str_take q 50 ++ "..." else q

/-- The generation phase common to all paths (chain.py 498-561): a
`generating` status, one `token` event per non-empty streamed chunk, then the
`sources`, `metadata` and `done` events.  `iterations` is
`len(queries_executed)` (chain.py 555). -/
def generation_events (genStream : List String) (docs : List Doc)
    (mode : String) (queries_executed : List String) : List StreamEvent :=
  [StreamEvent.status "generating" "Generating response..."] ++
  ((genStream.filter (fun t => t ≠ "")).map StreamEvent.token) ++
  [StreamEvent.sources (docs.map stream_source_of),
   StreamEvent.metadata mode queries_executed.length queries_executed,
   StreamEvent.done]

/-- Embedding of `query_rag_stream` (chain.py 376-561), as the list of events it yields
plus how it ends.  On the agentic path the import of the missing
`run_agentic_retrieval_streaming` raises `ImportError` right after the first
`status` event, before any further yield.  The two legacy paths emit their
status events, retrieve (with the same dedup-and-cap merge as
`retrieve_with_expansion` on the expansion path), and run the generation
phase. -/
def query_rag_stream (cfg : StreamConfig) (genExpansion : Except String String)
    (retriever : String → List Doc) (genStream : List String)
    (question : String) (k : Nat) (use_query_expansion : Bool) :
    List StreamEvent × StreamOutcome :=
  let ev0 := [StreamEvent.status "analyzing" "Analyzing your question..."]
  let should_use_agent := cfg.use_agentic_rag && is_agentic_rag_available cfg
  if should_use_agent then
    -- `from app.rag.agent import run_agentic_retrieval_streaming` raises:
    -- the name is not defined in the agent module.
    (ev0, StreamOutcome.importError "run_agentic_retrieval_streaming")
  else if use_query_expansion then
    let expanded := expand_query genExpansion question
    let searching := (expanded.enumFrom 1).map fun p =>
      StreamEvent.status "searching" ("Search " ++ toString p.1 ++ ": " ++ short_query p.2)
    let docs := (dedup_by_content_hash (expanded.flatMap retriever) []).take (k * 2)
    ev0 ++ [StreamEvent.status "expanding" "Expanding search queries..."] ++
      searching ++
      [StreamEvent.status "processing"
        ("Found " ++ toString docs.length ++ " relevant documents")] ++
      generation_events genStream docs "streaming_with_expansion" expanded
    |> fun evs => (evs, StreamOutcome.completed)
  else
    let docs := retriever question
    ev0 ++ [StreamEvent.status "searching" "Searching documentation..."] ++
      generation_events genStream docs "streaming" [question]
    |> fun evs => (evs, StreamOutcome.completed)

/-! ## Legacy non-streaming path — `chain.py`, `_query_rag_legacy` (293-369) -/

/-- The `metadata` dict of the non-streaming response. -/
structure RagMetadata where
  mode : String
  iterations : Nat
  queries_executed : List String
deriving Repr, DecidableEq

/-- The non-streaming response dict. -/
structure LegacyResult where
  answer : String
  sources : List StreamSource
  metadata : RagMetadata
deriving Repr, DecidableEq

/-- Embedding of `_query_rag_legacy` (chain.py 293-369).  The expansion Generator is an
oracle indexed by invocation order (`genSeq n` is the outcome of the n-th
expansion-generation call); with expansion enabled the code calls it once
inside `retrieve_with_expansion` (line 317) and once more for the metadata
(line 319).  The final answer generation is `genAnswer` applied to the
formatted context.  Also returns the number of expansion-generation
invocations performed. -/
def query_rag_legacy (genSeq : Nat → Except String String)
    (retriever : String → List Doc) (genAnswer : String → String)
    (question : String) (k : Nat) (use_query_expansion : Bool) :
    LegacyResult × Nat :=
  if use_query_expansion then
    let docs := retrieve_with_expansion retriever (genSeq 0) question k
    let expanded_queries := expand_query (genSeq 1) question
    ({ answer := genAnswer (String.intercalate "\n\n---\n\n" (docs.map Doc.page_content))
       sources := docs.map stream_source_of
       metadata := { mode := "legacy_with_expansion", iterations := 1,
                     queries_executed := expanded_queries } }, 2)
  else
    let docs := retriever question
    ({ answer := genAnswer (String.intercalate "\n\n---\n\n" (docs.map Doc.page_content))
       sources := docs.map stream_source_of
       metadata := { mode := "legacy", iterations := 1,
                     queries_executed := [question] } }, 0)

/-! ## Global store interleaving model — `agent.py` 51-65 with two requests

The accumulated-evidence store `_retrieved_documents_store` is a module-level
global: every request runs `clear_retrieved_documents()` first, then its
`search_maintenance_docs` calls append to the shared list, then
`get_retrieved_documents()` reads it.  Two in-flight requests interleave
their operations on the one list. -/

inductive StoreOp where
  | clear
  | search (query : String)
  | get
deriving Repr, DecidableEq

/-- The sequence of global-store operations one request performs
(agent.py 394, 105-141, 443). -/
def request_trace (queries : List String) : List StoreOp :=
  StoreOp.clear :: (queries.map StoreOp.search ++ [StoreOp.get])

/-- Execute an interleaved operation sequence (tagged `false` = request A,
`true` = request B) against the shared store, recording what each request's
`get_retrieved_documents()` returned. -/
def exec_ops (retriever : String → List Doc) :
    List (Bool × StoreOp) → List DocEntry →
    Option (List DocEntry) → Option (List DocEntry) →
    List DocEntry × Option (List DocEntry) × Option (List DocEntry)
  | [], store, ra, rb => (store, ra, rb)
  | (rid, op) :: rest, store, ra, rb =>
    match op with
    | .clear => exec_ops retriever rest [] ra rb
    | .search q => exec_ops retriever rest (search_maintenance_docs retriever store q).1 ra rb
    | .get =>
      if rid then exec_ops retriever rest store ra (some store)
      else exec_ops retriever rest store (some store) rb

/-- The store produced by a sequence of search-tool calls from a given
store. -/
def run_searches (retriever : String → List Doc) (queries : List String)
    (store : List DocEntry) : List DocEntry :=
  queries.foldl (fun st q => (search_maintenance_docs retriever st q).1) store

/-- Statement that `ops` is an interleaving of request A's store operations
(over `qsA`) and request B's (over `qsB`): erasing the other request's steps leaves each
request's own trace. -/
def IsInterleaving (qsA qsB : List String) (ops : List (Bool × StoreOp)) : Prop :=
  (ops.filter (fun p => !p.1)).map Prod.snd = request_trace qsA ∧
  (ops.filter (fun p => p.1)).map Prod.snd = request_trace qsB

/-! ## Statement projections over runs -/

/-- The Dedup Key of a store entry: `(source, page, chunk_index)` (spec §3). -/
def dedup_key (e : DocEntry) : String × Option Int × Option Int :=
  (e.source, e.page, e.chunk_index)

/-- The `iterations` field of a completed run (`0` when the run aborted on a
propagated Generator exception, in which case no result is returned at
all). -/
def agent_iterations (gen : GenTurn) (retriever : String → List Doc)
    (max_iterations : Nat) (question : String) (history : List (String × String)) : Nat :=
  match (query_rag_agent gen retriever max_iterations question history).1 with
  | .ok r => r.iterations
  | .error _ => 0

/-- The `queries_executed` field of a completed run (`[]` when aborted). -/
def agent_queries (gen : GenTurn) (retriever : String → List Doc)
    (max_iterations : Nat) (question : String) (history : List (String × String)) : List String :=
  match (query_rag_agent gen retriever max_iterations question history).1 with
  | .ok r => r.queries_executed
  | .error _ => []

/-- The accumulated-evidence store of a completed run (`[]` when aborted). -/
def agent_store (gen : GenTurn) (retriever : String → List Doc)
    (max_iterations : Nat) (question : String) (history : List (String × String)) : List DocEntry :=
  match (run_agent_graph gen retriever max_iterations question history).1 with
  | .ok p => p.2
  | .error _ => []

/-- The ghost log of Retriever calls made through the search tool in a run. -/
def agent_log (gen : GenTurn) (retriever : String → List Doc)
    (max_iterations : Nat) (question : String) (history : List (String × String)) : List SearchCall :=
  (query_rag_agent gen retriever max_iterations question history).2

/-! ## Concrete instances used by witnesses and counterexamples -/

/-- Scenario-D style passage: `{source: "m.pdf", page: 3, chunk_index: 1}`. -/
def dCexA : Doc := ⟨"alpha", "m.pdf", some 3, none, none, some 1, none, none⟩

/-- A second passage with the same Dedup Key but different content. -/
def dCexB : Doc := ⟨"beta", "m.pdf", some 3, none, none, some 1, none, none⟩

/-- A retriever returning the two identical-key passages for any query. -/
def retrCex : String → List Doc := fun _ => [dCexA, dCexB]

/-- A Generator that searches once (`"s1"`) and then answers. -/
def genW : GenTurn := fun ms =>
  if ms.length ≤ 1 then .ok ("", [ToolCall.mk "search_maintenance_docs" "s1"])
  else .ok ("final answer", [])

/-- A Generator that asks two different searches and then answers. -/
def genD : GenTurn := fun ms =>
  if ms.length ≤ 1 then .ok ("", [ToolCall.mk "search_maintenance_docs" "s1"])
  else if ms.length ≤ 3 then .ok ("", [ToolCall.mk "search_maintenance_docs" "s2"])
  else .ok ("done", [])

/-- A Generator whose first call raises. -/
def genBoom : GenTurn := fun _ => .error "llm boom"

/-- A one-document retriever. -/
def retrW : String → List Doc := fun q =>
  [⟨"body " ++ q, "m.pdf", some 3, none, none, some 1, none, none⟩]

/-- A retriever returning the same single chunk for every query (scenario D:
two different queries retrieve the identical-key passage). -/
def retrD : String → List Doc := fun _ =>
  [⟨"chunk", "m.pdf", some 3, none, none, some 1, none, none⟩]

/-- A state whose latest Generator turn requests a search while the iteration
cap is already reached. -/
def stateAtCap : AgentState :=
  { messages := [Message.mk .assistant "x" [ToolCall.mk "search_maintenance_docs" "s9"]]
    original_question := "q"
    retrieved_documents := []
    executed_queries := []
    iteration_count := MAX_AGENT_ITERATIONS
    final_answer := none }

/-- A state whose latest Generator turn repeats an already-executed query. -/
def stateDup : AgentState :=
  { messages := [Message.mk .assistant "x" [ToolCall.mk "search_maintenance_docs" "s1",
                                            ToolCall.mk "search_maintenance_docs" "novel"]]
    original_question := "q"
    retrieved_documents := []
    executed_queries := ["s1"]
    iteration_count := 0
    final_answer := none }

/-- The document retrieved in the interleaving counterexample. -/
def dInter : String → List Doc := fun q =>
  [⟨"body " ++ q, "m.pdf", some 1, none, none, some 0, none, none⟩]

/-- A concrete interleaving of two requests A (query `"qa"`) and B (query
`"qb"`): B's `clear` runs between A's search and A's final read. -/
def opsCex : List (Bool × StoreOp) :=
  [(false, .clear), (false, .search "qa"), (true, .clear), (true, .search "qb"),
   (false, .get), (true, .get)]

/-- The oracle of the C10 counterexample: the two expansion invocations get
different Generator responses that strip to the same query list. -/
def genSeqCex : Nat → Except String String := fun n =>
  if n = 0 then .ok "alt" else .ok " alt "

/-- An oracle whose two responses differ and expand differently. -/
def genSeqDiff : Nat → Except String String := fun n =>
  if n = 0 then .ok "a" else .ok "b"

/-- The `source_key` string recomputed from a user-facing source record
(`source_key e = record_key (source_record_of e)` definitionally). -/
def record_key (r : SourceRecord) : String :=
  r.document ++ "_" ++ py_str_opt_int r.page ++ "_" ++ py_str_opt_int r.chunk_index

/-- The store entry that request B's search writes in the interleaving
counterexample. -/
def entryInterB : DocEntry :=
  doc_entry_of "qb" ⟨"body " ++ "qb", "m.pdf", some 1, none, none, some 0, none, none⟩

/-- The store entry request A's own search produces. -/
def entryInterA : DocEntry :=
  doc_entry_of "qa" ⟨"body " ++ "qa", "m.pdf", some 1, none, none, some 0, none, none⟩

/-! # Theorems -/

/-! ## Aggregator dedup lemmas -/

lemma dedup_sublist (l : List Doc) : ∀ seen : List String,
    List.Sublist (dedup_by_content_hash l seen) l := by
  induction l with
  | nil => intro seen; simp [dedup_by_content_hash]
  | cons d rest ih =>
    intro seen
    unfold dedup_by_content_hash
    split
    · exact List.Sublist.cons d (ih seen)
    · exact List.Sublist.cons₂ d (ih _)

lemma dedup_hash_not_seen (l : List Doc) : ∀ (seen : List String),
    ∀ d ∈ dedup_by_content_hash l seen, content_hash d.page_content ∉ seen := by
  induction l with
  | nil => intro seen d hd; simp [dedup_by_content_hash] at hd
  | cons a rest ih =>
    intro seen d hd
    unfold dedup_by_content_hash at hd
    split at hd
    · exact ih seen d hd
    · rcases List.mem_cons.mp hd with rfl | hmem
      · assumption
      · have := ih _ d hmem
        intro hseen
        exact this (List.mem_cons_of_mem _ hseen)

lemma dedup_pairwise (l : List Doc) : ∀ seen : List String,
    (dedup_by_content_hash l seen).Pairwise
      (fun a b => content_hash a.page_content ≠ content_hash b.page_content) := by
  induction l with
  | nil => intro seen; simp [dedup_by_content_hash]
  | cons a rest ih =>
    intro seen
    unfold dedup_by_content_hash
    split
    · exact ih seen
    · refine List.Pairwise.cons ?_ (ih _)
      intro b hb
      have := dedup_hash_not_seen rest _ b hb
      intro h
      exact this (h ▸ List.mem_cons_self _ _)

lemma dedup_coverage (l : List Doc) : ∀ seen : List String, ∀ d ∈ l,
    content_hash d.page_content ∈ seen ∨
    ∃ e ∈ dedup_by_content_hash l seen,
      content_hash e.page_content = content_hash d.page_content := by
  induction l with
  | nil => intro seen d hd; simp at hd
  | cons a rest ih =>
    intro seen d hd
    unfold dedup_by_content_hash
    rcases List.mem_cons.mp hd with rfl | hmem
    · split
      · exact .inl (by assumption)
      · exact .inr ⟨d, List.mem_cons_self _ _, rfl⟩
    · split
      · exact ih seen d hmem
      · rcases ih (content_hash a.page_content :: seen) d hmem with hseen | ⟨e, he, heq⟩
        · rcases List.mem_cons.mp hseen with h | h
          · exact .inr ⟨a, List.mem_cons_self _ _, h.symm⟩
          · exact .inl h
        · exact .inr ⟨e, List.mem_cons_of_mem _ he, heq⟩

/-- C6 (confirmed): the Query Expander returns 1-4 queries, the original
question first, at most 3 extras which are stripped non-blank lines of the
Generator's text; on generation failure it returns exactly `[question]`.
It never raises: the embedded function is total, mirroring the
`try/except` that converts any raised generation into the fallback. -/
theorem spec_C6_query_expander (question err text : String) :
    expand_query (Except.error err) question = [question] ∧
    (expand_query (Except.ok text) question).head? = some question ∧
    1 ≤ (expand_query (Except.ok text) question).length ∧
    (expand_query (Except.ok text) question).length ≤ 4 ∧
    ∀ e ∈ (expand_query (Except.ok text) question).tail,
      e ≠ "" ∧ ∃ raw ∈ py_split_nl (py_strip text), e = py_strip raw := by
  refine ⟨rfl, rfl, by simp [expand_query], ?_, ?_⟩
  · have h := List.length_take_le 3
      (((py_split_nl (py_strip text)).map py_strip).filter (fun q => q ≠ ""))
    simp only [expand_query, List.length_cons]
    omega
  · intro e he
    simp only [expand_query, List.tail_cons] at he
    have h1 : e ∈ ((py_split_nl (py_strip text)).map py_strip).filter (fun q => q ≠ "") :=
      List.mem_of_mem_take he
    have h2 := List.mem_filter.mp h1
    obtain ⟨raw, hraw, rfl⟩ := List.mem_map.mp h2.1
    exact ⟨by simpa using h2.2, raw, hraw, rfl⟩

/-- Witness for C6 at a concrete failing generation and a concrete
two-line generation. -/
theorem spec_C6_query_expander_witness :
    expand_query (Except.error "down") "q" = ["q"] ∧
    (expand_query (Except.ok "a\nb") "q").head? = some "q" ∧
    "a" ≠ "" :=
  ⟨(spec_C6_query_expander "q" "down" "a\nb").1,
   (spec_C6_query_expander "q" "down" "a\nb").2.1,
   ((spec_C6_query_expander "q" "down" "a\nb").2.2.2.2 "a" (by decide)).1⟩

/-- C7 (confirmed): the Retrieval Aggregator's merged output is a
subsequence of the per-query results in arrival order (first-seen order
preserved), pairwise distinct under the content-hash of the 500-character
prefix, at most `2*k` long, a prefix of the full deduplicated arrival
sequence (hard truncation in arrival order, not a ranked selection), and
every arriving passage is represented in the deduplicated sequence by a
passage with the same content hash. -/
theorem spec_C7_aggregator_merge (retriever : String → List Doc)
    (genResult : Except String String) (question : String) (k : Nat) :
    List.Sublist (retrieve_with_expansion retriever genResult question k)
      ((expand_query genResult question).flatMap retriever) ∧
    (retrieve_with_expansion retriever genResult question k).Pairwise
      (fun a b => content_hash a.page_content ≠ content_hash b.page_content) ∧
    (retrieve_with_expansion retriever genResult question k).length ≤ 2 * k ∧
    (∃ t, retrieve_with_expansion retriever genResult question k ++ t =
      dedup_by_content_hash ((expand_query genResult question).flatMap retriever) []) ∧
    ((expand_query genResult question).flatMap retriever).all (fun d =>
      (dedup_by_content_hash ((expand_query genResult question).flatMap retriever) []).any
        (fun e => content_hash e.page_content == content_hash d.page_content)) = true := by
  refine ⟨?_, ?_, ?_, ?_, ?_⟩
  · exact (List.take_sublist _ _).trans (dedup_sublist _ [])
  · exact List.Pairwise.sublist (List.take_sublist _ _) (dedup_pairwise _ [])
  · have h := List.length_take_le (k * 2)
      (dedup_by_content_hash ((expand_query genResult question).flatMap retriever) [])
    simp only [retrieve_with_expansion]
    omega
  · exact ⟨_, List.take_append_drop _ _⟩
  · rw [List.all_eq_true]
    intro d hd
    rcases dedup_coverage _ [] d hd with h | h
    · simp at h
    · rcases h with ⟨e, he, heq⟩
      rw [List.any_eq_true]
      exact ⟨e, he, by simp [heq]⟩

/-- Witness for C7 at the concrete two-passage retriever. -/
theorem spec_C7_aggregator_merge_witness :
    (retrieve_with_expansion retrCex (Except.error "down") "q" 4).length ≤ 2 * 4 ∧
    ((expand_query (Except.error "down") "q").flatMap retrCex).all (fun d =>
      (dedup_by_content_hash ((expand_query (Except.error "down") "q").flatMap retrCex) []).any
        (fun e => content_hash e.page_content == content_hash d.page_content)) = true :=
  ⟨(spec_C7_aggregator_merge retrCex (Except.error "down") "q" 4).2.2.1,
   (spec_C7_aggregator_merge retrCex (Except.error "down") "q" 4).2.2.2.2⟩

/-! ## Store dedup-key lemmas (C1) -/

lemma mem_store_add {store : List DocEntry} {x e : DocEntry}
    (h : e ∈ store_add store x) : e ∈ store ∨ e = x := by
  unfold store_add at h
  split at h
  · exact .inl h
  · rcases List.mem_append.mp h with h | h
    · exact .inl h
    · exact .inr (by simpa using h)

lemma store_add_pairwise {store : List DocEntry} (x : DocEntry)
    (h : store.Pairwise (fun a b => dedup_key a ≠ dedup_key b)) :
    (store_add store x).Pairwise (fun a b => dedup_key a ≠ dedup_key b) := by
  unfold store_add
  split
  · exact h
  · rename_i hdup
    refine List.pairwise_append.mpr ⟨h, List.pairwise_singleton _ _, ?_⟩
    intro a ha b hb
    rcases List.mem_singleton.mp hb with rfl
    intro hk
    apply hdup
    simp only [is_duplicate, List.any_eq_true]
    refine ⟨a, ha, ?_⟩
    have h1 : a.source = b.source := congrArg Prod.fst hk
    have h2 : a.page = b.page := congrArg (fun p => p.2.1) hk
    have h3 : a.chunk_index = b.chunk_index := congrArg (fun p => p.2.2) hk
    simp [h1, h2, h3]

lemma foldl_store_add_pairwise (q : String) (docs : List Doc) :
    ∀ store : List DocEntry,
      store.Pairwise (fun a b => dedup_key a ≠ dedup_key b) →
      (docs.foldl (fun st d => store_add st (doc_entry_of q d)) store).Pairwise
        (fun a b => dedup_key a ≠ dedup_key b) := by
  induction docs with
  | nil => intro store h; exact h
  | cons d rest ih =>
    intro store h
    exact ih _ (store_add_pairwise _ h)

lemma search_store_pairwise (retriever : String → List Doc) (q : String)
    {store : List DocEntry}
    (h : store.Pairwise (fun a b => dedup_key a ≠ dedup_key b)) :
    ((search_maintenance_docs retriever store q).1).Pairwise
      (fun a b => dedup_key a ≠ dedup_key b) := by
  unfold search_maintenance_docs
  dsimp only
  split
  · exact h
  · exact foldl_store_add_pairwise q _ store h

lemma tool_node_pairwise (retriever : String → List Doc) (calls : List ToolCall) :
    ∀ (acc : List DocEntry × List Message),
      acc.1.Pairwise (fun a b => dedup_key a ≠ dedup_key b) →
      ((calls.foldl (fun acc tc =>
        if tc.name == "search_maintenance_docs" then
          let r := search_maintenance_docs retriever acc.1 tc.query
          (r.1, acc.2 ++ [Message.mk .tool r.2 []])
        else
          (acc.1, acc.2 ++ [Message.mk .tool ("Error: " ++ tc.name ++ " is not a valid tool.") []]))
        acc).1).Pairwise (fun a b => dedup_key a ≠ dedup_key b) := by
  induction calls with
  | nil => intro acc h; exact h
  | cons tc rest ih =>
    intro acc h
    simp only [List.foldl_cons]
    split
    · exact ih _ (search_store_pairwise retriever tc.query h)
    · exact ih _ h

lemma agent_loop_store_pairwise (gen : GenTurn) (retriever : String → List Doc)
    (m : Nat) : ∀ (fuel : Nat) (s : AgentState) (store : List DocEntry)
    (log : List SearchCall),
    store.Pairwise (fun a b => dedup_key a ≠ dedup_key b) →
    ∀ s' st', (agent_loop gen retriever m fuel s store log).1 = .ok (s', st') →
      st'.Pairwise (fun a b => dedup_key a ≠ dedup_key b) := by
  intro fuel
  induction fuel with
  | zero =>
    intro s store log h s' st' hok
    simp only [agent_loop] at hok
    cases hok
    exact h
  | succ n ih =>
    intro s store log h s' st' hok
    simp only [agent_loop] at hok
    split at hok
    · cases hok
    · split at hok
      · exact ih _ _ _ (tool_node_pairwise retriever _ _ h) s' st' hok
      · cases hok
        exact h

/-- C1 counterexample (closed): two passages sharing the full Dedup Key
`(source, page, chunk_index)` but differing in content both appear in the
Retrieval Aggregator's merged output, because `retrieve_with_expansion`
deduplicates only by the content hash, never by the metadata key. -/
theorem spec_C1_dedup_key_cex :
    dCexA ∈ retrieve_with_expansion retrCex (Except.error "down") "q" 4 ∧
    dCexB ∈ retrieve_with_expansion retrCex (Except.error "down") "q" 4 ∧
    dCexA.source = dCexB.source ∧ dCexA.page = dCexB.page ∧
    dCexA.chunk_index = dCexB.chunk_index ∧ dCexA ≠ dCexB := by
  decide

/-- C1 amended (proved): the Dedup Key invariant holds for the Agent
Orchestrator's accumulated evidence store and for the final source list of
every agentic run (so two identical-key passages retrieved by different
queries yield one entry), while the Retrieval Aggregator's merged output is
deduplicated by the content-hash of the 500-character content prefix
instead of the metadata key. -/
theorem spec_C1_dedup_key_amended (gen : GenTurn) (retriever : String → List Doc)
    (m : Nat) (q : String) (hist : List (String × String)) :
    (agent_store gen retriever m q hist).Pairwise
      (fun a b => dedup_key a ≠ dedup_key b) ∧
    (∀ store : List DocEntry, (build_sources store).Pairwise
      (fun a b => ¬(a.document = b.document ∧ a.page = b.page ∧
        a.chunk_index = b.chunk_index))) ∧
    ∀ (rr : String → List Doc) (gq : Except String String) (qq : String) (kk : Nat),
      (retrieve_with_expansion rr gq qq kk).Pairwise
        (fun a b => content_hash a.page_content ≠ content_hash b.page_content) := by
  refine ⟨?_, ?_, ?_⟩
  · unfold agent_store
    split
    · rename_i p hok
      unfold run_agent_graph at hok
      exact agent_loop_store_pairwise gen retriever m _ _ _ _ List.Pairwise.nil p.1 p.2
        (by rw [hok])
    · exact List.Pairwise.nil
  · intro store
    have key : ∀ (acc : List String × List SourceRecord),
        (∀ r ∈ acc.2, record_key r ∈ acc.1) →
        acc.2.Pairwise (fun a b => record_key a ≠ record_key b) →
        (∀ r ∈ (store.foldl (fun (acc : List String × List SourceRecord) e =>
            if acc.1.contains (source_key e) then acc
            else (source_key e :: acc.1, acc.2 ++ [source_record_of e])) acc).2,
          record_key r ∈ (store.foldl (fun (acc : List String × List SourceRecord) e =>
            if acc.1.contains (source_key e) then acc
            else (source_key e :: acc.1, acc.2 ++ [source_record_of e])) acc).1) ∧
        ((store.foldl (fun (acc : List String × List SourceRecord) e =>
            if acc.1.contains (source_key e) then acc
            else (source_key e :: acc.1, acc.2 ++ [source_record_of e])) acc).2).Pairwise
          (fun a b => record_key a ≠ record_key b) := by
      induction store with
      | nil => intro acc h1 h2; exact ⟨h1, h2⟩
      | cons e rest ih =>
        intro acc h1 h2
        simp only [List.foldl_cons]
        split
        · exact ih acc h1 h2
        · rename_i hseen
          refine ih _ ?_ ?_
          · intro r hr
            rcases List.mem_append.mp hr with hr | hr
            · exact List.mem_cons_of_mem _ (h1 r hr)
            · rcases List.mem_singleton.mp hr with rfl
              exact List.mem_cons_self _ _
          · refine List.pairwise_append.mpr ⟨h2, List.pairwise_singleton _ _, ?_⟩
            intro a ha b hb
            rcases List.mem_singleton.mp hb with rfl
            intro hk
            have hmem : record_key (source_record_of e) ∈ acc.1 := hk ▸ h1 a ha
            have hnot : source_key e ∉ acc.1 := by simpa using hseen
            exact hnot hmem
    have h := (key ([], []) (by simp) List.Pairwise.nil).2
    refine List.Pairwise.imp ?_ h
    intro a b hk ⟨e1, e2, e3⟩
    exact hk (by simp [record_key, e1, e2, e3])
  · intro rr gq qq kk
    exact List.Pairwise.sublist (List.take_sublist _ _) (dedup_pairwise _ [])

/-- Witness for C1 at a concrete two-search run retrieving the same
identical-key passage for two different queries (scenario D: one source
entry remains). -/
theorem spec_C1_dedup_key_amended_witness :
    (agent_store genD retrD 5 "q" []).Pairwise
      (fun a b => dedup_key a ≠ dedup_key b) ∧
    (build_sources (agent_store genD retrD 5 "q" [])).length = 1 :=
  ⟨(spec_C1_dedup_key_amended genD retrD 5 "q" []).1, by decide⟩

/-! ## Orchestrator loop lemmas (C2, C3) -/

lemma should_continue_end_of_cap (m : Nat) (s : AgentState)
    (h : m ≤ s.iteration_count) : should_continue m s = "end" := by
  unfold should_continue
  cases hl : s.messages.getLast? with
  | none => rfl
  | some last =>
    by_cases h1 : (!has_tool_calls_attr last || last.tool_calls.isEmpty) = true
    · simp [h1]
    · simp [h1, show decide (m ≤ s.iteration_count) = true by simpa using h]

lemma should_continue_cases (m : Nat) (s : AgentState) :
    should_continue m s = "end" ∨ should_continue m s = "tools" := by
  unfold should_continue
  cases s.messages.getLast? with
  | none => exact .inl rfl
  | some last =>
    dsimp only
    by_cases h1 : (!has_tool_calls_attr last || last.tool_calls.isEmpty) = true
    · rw [if_pos h1]; exact .inl rfl
    · rw [if_neg h1]
      by_cases h2 : decide (m ≤ s.iteration_count) = true
      · rw [if_pos h2]; exact .inl rfl
      · rw [if_neg h2]
        by_cases h3 : (last.tool_calls.any fun tc =>
            tc.name == "search_maintenance_docs" &&
            s.executed_queries.contains tc.query) = true
        · rw [if_pos h3]; exact .inl rfl
        · rw [if_neg h3]; exact .inr rfl

lemma should_continue_tools_facts (m : Nat) (s : AgentState)
    (h : should_continue m s = "tools") :
    s.iteration_count < m ∧
    ∀ last, s.messages.getLast? = some last →
      ∀ tc ∈ last.tool_calls, tc.name = "search_maintenance_docs" →
        tc.query ∉ s.executed_queries := by
  unfold should_continue at h
  cases hl : s.messages.getLast? with
  | none => rw [hl] at h; dsimp only at h; exact absurd h (by decide)
  | some last =>
    rw [hl] at h
    dsimp only at h
    by_cases h1 : (!has_tool_calls_attr last || last.tool_calls.isEmpty) = true
    · rw [if_pos h1] at h; exact absurd h (by decide)
    · rw [if_neg h1] at h
      by_cases h2 : decide (m ≤ s.iteration_count) = true
      · rw [if_pos h2] at h; exact absurd h (by decide)
      · rw [if_neg h2] at h
        by_cases h3 : (last.tool_calls.any fun tc =>
            tc.name == "search_maintenance_docs" &&
            s.executed_queries.contains tc.query) = true
        · rw [if_pos h3] at h; exact absurd h (by decide)
        · refine ⟨by simpa using h2, ?_⟩
          intro last' hlast' tc htc hname hmem
          injection hlast' with heq
          subst heq
          apply h3
          rw [List.any_eq_true]
          exact ⟨tc, htc, by simp [hname, hmem]⟩

lemma should_continue_end_of_dup (m : Nat) (s : AgentState) (last : Message)
    (hl : s.messages.getLast? = some last)
    (h : last.tool_calls.any (fun tc =>
      tc.name == "search_maintenance_docs" && s.executed_queries.contains tc.query) = true) :
    should_continue m s = "end" := by
  rcases should_continue_cases m s with he | ht
  · exact he
  · exfalso
    have hf := should_continue_tools_facts m s ht
    rw [List.any_eq_true] at h
    rcases h with ⟨tc, htc, hcond⟩
    simp only [Bool.and_eq_true] at hcond
    have hname : tc.name = "search_maintenance_docs" := by simpa using hcond.1
    have hmem : tc.query ∈ s.executed_queries := by simpa using hcond.2
    exact hf.2 last hl tc htc hname hmem

lemma nodup_foldl_queries (l : List ToolCall) :
    ∀ acc : List String, acc.Nodup →
      (l.foldl (fun acc tc =>
        if tc.name == "search_maintenance_docs" && tc.query != "" && !acc.contains tc.query then
          acc ++ [tc.query]
        else acc) acc).Nodup := by
  induction l with
  | nil => intro acc h; exact h
  | cons tc rest ih =>
    intro acc h
    simp only [List.foldl_cons]
    split
    · rename_i hc
      simp only [Bool.and_eq_true] at hc
      refine ih _ (List.nodup_append.mpr ⟨h, List.nodup_singleton _, ?_⟩)
      intro a ha hb
      have hab := List.mem_singleton.mp hb
      subst hab
      have hnc : ¬ acc.contains tc.query = true := by simpa using hc.2
      exact hnc (by simpa using ha)
    · exact ih _ h

lemma update_state_nodup (s : AgentState) (h : s.executed_queries.Nodup) :
    (update_state_after_tools s).executed_queries.Nodup := by
  unfold update_state_after_tools
  dsimp only
  split
  · exact h
  · exact nodup_foldl_queries _ _ h

lemma update_state_count (s : AgentState) :
    (update_state_after_tools s).iteration_count = s.iteration_count + 1 := rfl

lemma agent_loop_inv (gen : GenTurn) (retriever : String → List Doc) (m : Nat) :
    ∀ (fuel : Nat) (s : AgentState) (store : List DocEntry) (log : List SearchCall),
      s.executed_queries.Nodup →
      s.iteration_count ≤ m →
      (∀ c ∈ log, c.query ∉ c.executed_before) →
      (∀ c ∈ (agent_loop gen retriever m fuel s store log).2, c.query ∉ c.executed_before) ∧
      ∀ s' st', (agent_loop gen retriever m fuel s store log).1 = .ok (s', st') →
        s'.executed_queries.Nodup ∧ s'.iteration_count ≤ m := by
  intro fuel
  induction fuel with
  | zero =>
    intro s store log hn hc hl
    refine ⟨hl, ?_⟩
    intro s' st' hok
    simp only [agent_loop] at hok
    cases hok
    exact ⟨hn, hc⟩
  | succ n ih =>
    intro s store log hn hc hl
    simp only [agent_loop]
    cases hg : gen s.messages with
    | error e =>
      refine ⟨hl, ?_⟩
      intro s' st' hok
      cases hok
    | ok turn =>
      dsimp only
      split
      · rename_i hsc
        have hfacts := should_continue_tools_facts m _ hsc
        refine ih _ _ _ ?_ ?_ ?_
        · exact update_state_nodup _ hn
        · rw [update_state_count]
          exact hfacts.1
        · intro c hcmem
          rcases List.mem_append.mp hcmem with hcl | hcr
          · exact hl c hcl
          · rcases List.mem_map.mp hcr with ⟨tc, htc, rfl⟩
            have hf := List.mem_filter.mp htc
            have hname : tc.name = "search_maintenance_docs" := by simpa using hf.2
            exact hfacts.2 _ (List.getLast?_concat _) tc hf.1 hname
      · rename_i hsc
        refine ⟨hl, ?_⟩
        intro s' st' hok
        cases hok
        exact ⟨hn, hc⟩

lemma run_agent_graph_eq (gen : GenTurn) (retriever : String → List Doc)
    (m : Nat) (q : String) (hist : List (String × String)) :
    run_agent_graph gen retriever m q hist =
      agent_loop gen retriever m (m + 1)
        { messages := history_messages hist ++ [Message.mk .user q []]
          original_question := q
          retrieved_documents := []
          executed_queries := []
          iteration_count := 0
          final_answer := none } [] [] := rfl

lemma agent_log_eq (gen : GenTurn) (retriever : String → List Doc)
    (m : Nat) (q : String) (hist : List (String × String)) :
    agent_log gen retriever m q hist = (run_agent_graph gen retriever m q hist).2 := by
  unfold agent_log query_rag_agent
  rcases run_agent_graph gen retriever m q hist with ⟨res, log⟩
  cases res <;> rfl

/-- C2 (confirmed): in every agentic run, `executed_queries` never holds a
duplicate string, every Retriever call made through the search tool is for a
query not yet in `executed_queries` at call time, and whenever the latest
Generator turn repeats an already-executed query (even among novel ones),
`should_continue` routes to `"end"` — the branch that executes no search for
that turn. -/
theorem spec_C2_loop_detection (gen : GenTurn) (retriever : String → List Doc)
    (m : Nat) (q : String) (hist : List (String × String)) :
    (∀ c ∈ agent_log gen retriever m q hist, c.query ∉ c.executed_before) ∧
    (agent_queries gen retriever m q hist).Nodup ∧
    ∀ (s : AgentState) (last : Message), s.messages.getLast? = some last →
      last.tool_calls.any (fun tc =>
        tc.name == "search_maintenance_docs" &&
        s.executed_queries.contains tc.query) = true →
      should_continue m s = "end" := by
  have hinv := agent_loop_inv gen retriever m (m + 1)
    { messages := history_messages hist ++ [Message.mk .user q []]
      original_question := q
      retrieved_documents := []
      executed_queries := []
      iteration_count := 0
      final_answer := none } [] [] List.nodup_nil (Nat.zero_le m) (by simp)
  refine ⟨?_, ?_, ?_⟩
  · intro c hc
    rw [agent_log_eq, run_agent_graph_eq] at hc
    exact hinv.1 c hc
  · unfold agent_queries query_rag_agent
    cases hrun : run_agent_graph gen retriever m q hist with
    | mk res log =>
      cases res with
      | error e => simp
      | ok p =>
        dsimp only
        rw [run_agent_graph_eq] at hrun
        have hfst : (agent_loop gen retriever m (m + 1)
            { messages := history_messages hist ++ [Message.mk .user q []]
              original_question := q
              retrieved_documents := []
              executed_queries := []
              iteration_count := 0
              final_answer := none } [] []).1 = .ok (p.1, p.2) := by
          rw [hrun]
        exact (hinv.2 p.1 p.2 hfst).1
  · intro s last hl h
    exact should_continue_end_of_dup m s last hl h

/-- Witness for C2: a run whose single logged Retriever call was issued with
an empty `executed_queries`, plus the duplicate-turn state routed to
`"end"`. -/
theorem spec_C2_loop_detection_witness :
    ("s1" ∉ ([] : List String)) ∧
    (agent_queries genW retrW 5 "q" []).Nodup ∧
    should_continue 5 stateDup = "end" :=
  ⟨(spec_C2_loop_detection genW retrW 5 "q" []).1 ⟨"s1", []⟩ (by decide),
   (spec_C2_loop_detection genW retrW 5 "q" []).2.1,
   (spec_C2_loop_detection genW retrW 5 "q" []).2.2 stateDup
     (Message.mk .assistant "x" [ToolCall.mk "search_maintenance_docs" "s1",
       ToolCall.mk "search_maintenance_docs" "novel"]) rfl (by decide)⟩

/-- C3 (confirmed): in every agentic run `iteration_count` never exceeds
`max_iterations` (default `MAX_AGENT_ITERATIONS = 5`), and whenever the cap
is reached while the latest Generator turn requests a search,
`should_continue` forces `"end"` instead of executing it. -/
theorem spec_C3_iteration_cap (gen : GenTurn) (retriever : String → List Doc)
    (m : Nat) (q : String) (hist : List (String × String)) :
    agent_iterations gen retriever m q hist ≤ m ∧
    ∀ s : AgentState, m ≤ s.iteration_count → should_continue m s = "end" := by
  have hinv := agent_loop_inv gen retriever m (m + 1)
    { messages := history_messages hist ++ [Message.mk .user q []]
      original_question := q
      retrieved_documents := []
      executed_queries := []
      iteration_count := 0
      final_answer := none } [] [] List.nodup_nil (Nat.zero_le m) (by simp)
  refine ⟨?_, fun s h => should_continue_end_of_cap m s h⟩
  unfold agent_iterations query_rag_agent
  cases hrun : run_agent_graph gen retriever m q hist with
  | mk res log =>
    cases res with
    | error e => simp [Nat.zero_le]
    | ok p =>
      dsimp only
      rw [run_agent_graph_eq] at hrun
      have hfst : (agent_loop gen retriever m (m + 1)
          { messages := history_messages hist ++ [Message.mk .user q []]
            original_question := q
            retrieved_documents := []
            executed_queries := []
            iteration_count := 0
            final_answer := none } [] []).1 = .ok (p.1, p.2) := by
        rw [hrun]
      exact (hinv.2 p.1 p.2 hfst).2

/-- Witness for C3 at the default iteration cap, plus the forced `"end"` at
a concrete capped state whose turn requests a search. -/
theorem spec_C3_iteration_cap_witness :
    agent_iterations genW retrW MAX_AGENT_ITERATIONS "q" [] ≤ MAX_AGENT_ITERATIONS ∧
    should_continue MAX_AGENT_ITERATIONS stateAtCap = "end" :=
  ⟨(spec_C3_iteration_cap genW retrW MAX_AGENT_ITERATIONS "q" []).1,
   (spec_C3_iteration_cap genW retrW MAX_AGENT_ITERATIONS "q" []).2 stateAtCap
     (by decide)⟩

/-! ## Final-answer lemmas (C5) -/

lemma agent_loop_ok_of_total (gen0 : List Message → String × List ToolCall)
    (retriever : String → List Doc) (m : Nat) :
    ∀ (fuel : Nat) (s : AgentState) (store : List DocEntry) (log : List SearchCall),
      ∃ p, (agent_loop (fun ms => Except.ok (gen0 ms)) retriever m fuel s store log).1 =
        Except.ok p := by
  intro fuel
  induction fuel with
  | zero => intro s store log; exact ⟨_, rfl⟩
  | succ n ih =>
    intro s store log
    simp only [agent_loop]
    split
    · exact ih _ _ _
    · exact ⟨_, rfl⟩

lemma agent_loop_error_generation (gen : GenTurn) (retriever : String → List Doc)
    (m : Nat) : ∀ (fuel : Nat) (s : AgentState) (store : List DocEntry)
    (log : List SearchCall) (e : RagError),
    (agent_loop gen retriever m fuel s store log).1 = .error e →
    ∃ msg, e = RagError.generation msg := by
  intro fuel
  induction fuel with
  | zero =>
    intro s store log e h
    simp only [agent_loop] at h
    cases h
  | succ n ih =>
    intro s store log e h
    simp only [agent_loop] at h
    cases hg : gen s.messages with
    | error e2 =>
      rw [hg] at h
      dsimp only at h
      injection h with heq
      exact ⟨e2, heq.symm⟩
    | ok turn =>
      rw [hg] at h
      dsimp only at h
      split at h
      · exact ih _ _ _ _ h
      · cases h

lemma extract_fallback_mem (ms : List Message)
    (h : ((ms.reverse.find? (fun m => m.role == Role.assistant)).map
      Message.content).getD "" ≠ "") :
    ∃ mm ∈ ms, mm.role = Role.assistant ∧
      mm.content = ((ms.reverse.find? (fun m => m.role == Role.assistant)).map
        Message.content).getD "" := by
  cases hf : ms.reverse.find? (fun m => m.role == Role.assistant) with
  | none => rw [hf] at h; simp at h
  | some mm =>
    exact ⟨mm, List.mem_reverse.mp (List.mem_of_find?_eq_some hf),
      by simpa using List.find?_some hf, by simp⟩

lemma extract_answer_mem (ms : List Message) (h : extract_answer ms ≠ "") :
    ∃ mm ∈ ms, mm.role = Role.assistant ∧ mm.content = extract_answer ms := by
  unfold extract_answer at h ⊢
  by_cases hcond : (((ms.reverse.find? fun m =>
      (m.role == Role.assistant && !has_tool_calls_attr m) ||
      (m.role == Role.assistant && has_tool_calls_attr m && m.tool_calls.isEmpty)).map
        Message.content).getD "" ≠ "")
  · rw [if_pos hcond] at h ⊢
    cases hf : ms.reverse.find? fun m =>
        (m.role == Role.assistant && !has_tool_calls_attr m) ||
        (m.role == Role.assistant && has_tool_calls_attr m && m.tool_calls.isEmpty) with
    | none => rw [hf] at hcond; simp at hcond
    | some mm =>
      have hpred := List.find?_some hf
      simp only [Bool.or_eq_true, Bool.and_eq_true] at hpred
      refine ⟨mm, List.mem_reverse.mp (List.mem_of_find?_eq_some hf), ?_, by simp⟩
      rcases hpred with ⟨hr, -⟩ | ⟨⟨hr, -⟩, -⟩ <;> simpa using hr
  · rw [if_neg hcond] at h ⊢
    exact extract_fallback_mem ms h

lemma extract_answer_no_assistant (ms : List Message)
    (h : ∀ mm ∈ ms, mm.role ≠ Role.assistant) : extract_answer ms = "" := by
  unfold extract_answer
  have h1 : (ms.reverse.find? fun m =>
      (m.role == Role.assistant && !has_tool_calls_attr m) ||
      (m.role == Role.assistant && has_tool_calls_attr m && m.tool_calls.isEmpty)) = none := by
    rw [List.find?_eq_none]
    intro x hx
    have hx' := h x (List.mem_reverse.mp hx)
    simp only [Bool.or_eq_true, Bool.and_eq_true]
    rintro (⟨hr, -⟩ | ⟨⟨hr, -⟩, -⟩) <;> exact hx' (by simpa using hr)
  have h2 : (ms.reverse.find? fun m => m.role == Role.assistant) = none := by
    rw [List.find?_eq_none]
    intro x hx
    have hx' := h x (List.mem_reverse.mp hx)
    simpa using hx'
  rw [h1, h2]
  simp

/-- C5 counterexample (closed): a run in which the Generator never produced
an assistant turn (its very first call raises) fails with the propagated
`GenerationFailure`, not with an `OrchestrationError` — no code path in
`query_rag_agent` constructs an orchestration error; and on a transcript
with no assistant message the answer extraction returns `""` normally
instead of raising. -/
theorem spec_C5_orchestration_error_cex :
    (query_rag_agent genBoom retrW 5 "q" []).1 =
      Except.error (RagError.generation "llm boom") ∧
    extract_answer [Message.mk Role.user "q" []] = "" := ⟨rfl, rfl⟩

/-- C5 amended (proved): when generation never fails the run returns a
result (never an error), and every error a run can surface is a propagated
`GenerationFailure` — never an `OrchestrationError`; the returned answer is
the content of the most recent assistant message without tool calls
(falling back per the code), so any non-empty answer is the content of some
assistant message of the transcript, and a transcript without assistant
turns yields the empty-string answer rather than an error. -/
theorem spec_C5_final_answer_amended (gen0 : List Message → String × List ToolCall)
    (gen : GenTurn) (retriever : String → List Doc) (m : Nat) (q : String)
    (hist : List (String × String)) :
    (∃ p, (run_agent_graph (fun ms => Except.ok (gen0 ms)) retriever m q hist).1 =
      Except.ok p) ∧
    (∀ e, (run_agent_graph gen retriever m q hist).1 = .error e →
      ∃ msg, e = RagError.generation msg) ∧
    (∀ ms : List Message, extract_answer ms ≠ "" →
      ∃ mm ∈ ms, mm.role = Role.assistant ∧ mm.content = extract_answer ms) ∧
    (∀ ms : List Message, (∀ mm ∈ ms, mm.role ≠ Role.assistant) →
      extract_answer ms = "") := by
  refine ⟨?_, ?_, extract_answer_mem, extract_answer_no_assistant⟩
  · rw [run_agent_graph_eq]
    exact agent_loop_ok_of_total gen0 retriever m _ _ _ _
  · intro e he
    rw [run_agent_graph_eq] at he
    exact agent_loop_error_generation gen retriever m _ _ _ _ e he

/-- Witness for C5 (amended) at a concrete run and a concrete
assistant-free transcript. -/
theorem spec_C5_final_answer_amended_witness :
    extract_answer [Message.mk Role.user "q" []] = "" :=
  (spec_C5_final_answer_amended (fun _ => ("a", [])) genBoom retrW 5 "q" []).2.2.2
    [Message.mk Role.user "q" []] (by decide)

/-! ## Streaming event-ordering lemmas (C4, C9) -/

lemma dropWhile_append_all {α : Type} (p : α → Bool) (l r : List α)
    (h : ∀ e ∈ l, p e = true) : (l ++ r).dropWhile p = r.dropWhile p := by
  induction l with
  | nil => simp
  | cons a t ih =>
    simp only [List.cons_append, List.dropWhile_cons]
    rw [h a (List.mem_cons_self _ _)]
    simpa using ih (fun e he => h e (List.mem_cons_of_mem _ he))

lemma is_token_not_status {e : StreamEvent} (h : is_token e = true) :
    is_status e = false := by
  cases e <;> simp_all [is_token, is_status]

lemma stream_shape (ss ts : List StreamEvent) (srcs : List StreamSource)
    (mo : String) (it : Nat) (qs : List String)
    (hs : ∀ e ∈ ss, is_status e = true) (ht : ∀ e ∈ ts, is_token e = true) :
    stream_pattern_ok (ss ++ (ts ++ [StreamEvent.sources srcs,
      StreamEvent.metadata mo it qs, StreamEvent.done])) = true := by
  unfold stream_pattern_ok
  rw [dropWhile_append_all is_status ss _ hs]
  have h1 : (ts ++ [StreamEvent.sources srcs, StreamEvent.metadata mo it qs,
      StreamEvent.done]).dropWhile is_status =
      ts ++ [StreamEvent.sources srcs, StreamEvent.metadata mo it qs,
        StreamEvent.done] := by
    cases ts with
    | nil => simp [List.dropWhile_cons, is_status]
    | cons t ts' =>
      simp only [List.cons_append, List.dropWhile_cons]
      rw [is_token_not_status (ht t (List.mem_cons_self _ _))]
      simp
  rw [h1, dropWhile_append_all is_token ts _ ht]
  rfl

lemma countP_shape (p : StreamEvent → Bool) (ss ts rest : List StreamEvent)
    (hs : ∀ e ∈ ss, p e = false) (ht : ∀ e ∈ ts, p e = false) :
    (ss ++ (ts ++ rest)).countP p = rest.countP p := by
  have h1 : ss.countP p = 0 := List.countP_eq_zero.mpr (fun a ha => by simp [hs a ha])
  have h2 : ts.countP p = 0 := List.countP_eq_zero.mpr (fun a ha => by simp [ht a ha])
  simp [List.countP_append, h1, h2]

lemma stream_pattern_generation (ss : List StreamEvent) (gs : List String)
    (docs : List Doc) (mode : String) (queries : List String)
    (hs : ∀ e ∈ ss, is_status e = true) :
    stream_pattern_ok (ss ++ generation_events gs docs mode queries) = true ∧
    (ss ++ generation_events gs docs mode queries).countP is_sources = 1 ∧
    (ss ++ generation_events gs docs mode queries).countP is_metadata = 1 ∧
    (ss ++ generation_events gs docs mode queries).countP is_done = 1 := by
  have hshape : ss ++ generation_events gs docs mode queries =
      (ss ++ [StreamEvent.status "generating" "Generating response..."]) ++
      (((gs.filter (fun t => t ≠ "")).map StreamEvent.token) ++
        [StreamEvent.sources (docs.map stream_source_of),
         StreamEvent.metadata mode queries.length queries,
         StreamEvent.done]) := by
    simp [generation_events, List.append_assoc]
  have hs' : ∀ e ∈ ss ++ [StreamEvent.status "generating" "Generating response..."],
      is_status e = true := by
    intro e he
    rcases List.mem_append.mp he with he | he
    · exact hs e he
    · have := List.mem_singleton.mp he
      subst this
      rfl
  have ht : ∀ e ∈ (gs.filter (fun t => t ≠ "")).map StreamEvent.token,
      is_token e = true := by
    intro e he
    rcases List.mem_map.mp he with ⟨t, ht0, rfl⟩
    rfl
  have hnp : ∀ e : StreamEvent, is_status e = true ∨ is_token e = true →
      is_sources e = false ∧ is_metadata e = false ∧ is_done e = false := by
    intro e he
    cases e <;> simp_all [is_status, is_token, is_sources, is_metadata, is_done]
  rw [hshape]
  refine ⟨stream_shape _ _ _ _ _ _ hs' ht, ?_, ?_, ?_⟩
  · rw [countP_shape _ _ _ _ (fun e he => (hnp e (.inl (hs' e he))).1)
      (fun e he => (hnp e (.inr (ht e he))).1)]
    simp [List.countP_cons, is_sources, is_metadata, is_done]
  · rw [countP_shape _ _ _ _ (fun e he => (hnp e (.inl (hs' e he))).2.1)
      (fun e he => (hnp e (.inr (ht e he))).2.1)]
    simp [List.countP_cons, is_sources, is_metadata, is_done]
  · rw [countP_shape _ _ _ _ (fun e he => (hnp e (.inl (hs' e he))).2.2)
      (fun e he => (hnp e (.inr (ht e he))).2.2)]
    simp [List.countP_cons, is_sources, is_metadata, is_done]

/-- C9 (confirmed): whenever the agentic mode is enabled and available, the
streaming path raises `ImportError` importing the undefined
`run_agentic_retrieval_streaming`, after emitting only `status` events —
no `token`, `sources`, `metadata` or `done` event is ever emitted there. -/
theorem spec_C9_agentic_stream_import_error (genExp : Except String String)
    (retr : String → List Doc) (gs : List String) (qq : String) (k : Nat)
    (uqe : Bool) :
    agent_module_defines_streaming_fn = false ∧
    (query_rag_stream ⟨true, true⟩ genExp retr gs qq k uqe).2 =
      StreamOutcome.importError "run_agentic_retrieval_streaming" ∧
    ∀ e ∈ (query_rag_stream ⟨true, true⟩ genExp retr gs qq k uqe).1,
      is_status e = true := by
  refine ⟨rfl, rfl, ?_⟩
  intro e he
  have : e = StreamEvent.status "analyzing" "Analyzing your question..." :=
    List.mem_singleton.mp he
  subst this
  rfl

/-- Witness for C9 at concrete streaming inputs. -/
theorem spec_C9_agentic_stream_import_error_witness :
    (query_rag_stream ⟨true, true⟩ (Except.ok "a") retrW ["t"] "q" 4 true).2 =
      StreamOutcome.importError "run_agentic_retrieval_streaming" ∧
    is_status (StreamEvent.status "analyzing" "Analyzing your question...") = true :=
  ⟨(spec_C9_agentic_stream_import_error (Except.ok "a") retrW ["t"] "q" 4 true).2.1,
   (spec_C9_agentic_stream_import_error (Except.ok "a") retrW ["t"] "q" 4 true).2.2
     (StreamEvent.status "analyzing" "Analyzing your question...") (by decide)⟩

/-- C4 (code bug): with the default configuration (`USE_AGENTIC_RAG = True`,
`langgraph` importable) a streaming run aborts with `ImportError` after one
`status` event, so its event sequence does not match
`status* token* sources metadata done` and contains no `done` at all —
contradicting both the claim and the code's own docstring; on the
non-agentic configurations the claimed ordering does hold, with exactly one
`sources`, `metadata` and `done`. -/
theorem spec_C4_event_ordering_bug :
    ((query_rag_stream ⟨USE_AGENTIC_RAG_default, true⟩ (Except.ok "a") retrW
        ["tok"] "q" 4 true).2 =
      StreamOutcome.importError "run_agentic_retrieval_streaming" ∧
     stream_pattern_ok (query_rag_stream ⟨USE_AGENTIC_RAG_default, true⟩
        (Except.ok "a") retrW ["tok"] "q" 4 true).1 = false ∧
     (query_rag_stream ⟨USE_AGENTIC_RAG_default, true⟩ (Except.ok "a") retrW
        ["tok"] "q" 4 true).1.countP is_done = 0) ∧
    ∀ (la : Bool) (genExp : Except String String) (retr : String → List Doc)
      (gs : List String) (qq : String) (k : Nat) (uqe : Bool),
      (query_rag_stream ⟨false, la⟩ genExp retr gs qq k uqe).2 =
        StreamOutcome.completed ∧
      stream_pattern_ok (query_rag_stream ⟨false, la⟩ genExp retr gs qq k uqe).1 = true ∧
      (query_rag_stream ⟨false, la⟩ genExp retr gs qq k uqe).1.countP is_sources = 1 ∧
      (query_rag_stream ⟨false, la⟩ genExp retr gs qq k uqe).1.countP is_metadata = 1 ∧
      (query_rag_stream ⟨false, la⟩ genExp retr gs qq k uqe).1.countP is_done = 1 := by
  refine ⟨⟨rfl, rfl, rfl⟩, ?_⟩
  intro la genExp retr gs qq k uqe
  unfold query_rag_stream is_agentic_rag_available
  dsimp only
  cases uqe with
  | true =>
    simp only [Bool.false_and, Bool.if_false_left]
    have hs : ∀ e ∈ [StreamEvent.status "analyzing" "Analyzing your question..."] ++
        [StreamEvent.status "expanding" "Expanding search queries..."] ++
        ((expand_query genExp qq).enumFrom 1).map (fun p =>
          StreamEvent.status "searching"
            ("Search " ++ toString p.1 ++ ": " ++ short_query p.2)) ++
        [StreamEvent.status "processing"
          ("Found " ++ toString ((dedup_by_content_hash
            ((expand_query genExp qq).flatMap retr) []).take (k * 2)).length ++
            " relevant documents")], is_status e = true := by
      intro e he
      rcases List.mem_append.mp he with he | he
      · rcases List.mem_append.mp he with he | he
        · rcases List.mem_append.mp he with he | he
          · have := List.mem_singleton.mp he; subst this; rfl
          · have := List.mem_singleton.mp he; subst this; rfl
        · rcases List.mem_map.mp he with ⟨p, -, rfl⟩; rfl
      · have := List.mem_singleton.mp he; subst this; rfl
    have h := stream_pattern_generation _ gs
      ((dedup_by_content_hash ((expand_query genExp qq).flatMap retr) []).take (k * 2))
      "streaming_with_expansion" (expand_query genExp qq) hs
    exact ⟨rfl, h.1, h.2.1, h.2.2.1, h.2.2.2⟩
  | false =>
    simp only [Bool.false_and, Bool.if_false_left]
    have hs : ∀ e ∈ [StreamEvent.status "analyzing" "Analyzing your question..."] ++
        [StreamEvent.status "searching" "Searching documentation..."],
        is_status e = true := by
      intro e he
      rcases List.mem_append.mp he with he | he
      · have h0 := List.mem_singleton.mp he
        subst h0
        rfl
      · have h0 := List.mem_singleton.mp he
        subst h0
        rfl
    have h := stream_pattern_generation _ gs (retr qq) "streaming" [qq] hs
    exact ⟨rfl, h.1, h.2.1, h.2.2.1, h.2.2.2⟩

/-! ## Global-store interleaving lemmas (C8) -/

lemma exec_ops_append (retr : String → List Doc) : ∀ (ops1 ops2 : List (Bool × StoreOp))
    (store : List DocEntry) (ra rb : Option (List DocEntry)),
    exec_ops retr (ops1 ++ ops2) store ra rb =
      exec_ops retr ops2 (exec_ops retr ops1 store ra rb).1
        (exec_ops retr ops1 store ra rb).2.1 (exec_ops retr ops1 store ra rb).2.2 := by
  intro ops1
  induction ops1 with
  | nil => intro ops2 store ra rb; rfl
  | cons p rest ih =>
    intro ops2 store ra rb
    rcases p with ⟨rid, op⟩
    cases rid <;> cases op <;> exact ih _ _ _ _

lemma exec_searches (retr : String → List Doc) (rid : Bool) :
    ∀ (qs : List String) (rest : List (Bool × StoreOp)) (store : List DocEntry)
      (ra rb : Option (List DocEntry)),
    exec_ops retr ((qs.map (fun q => (rid, StoreOp.search q))) ++ rest) store ra rb =
      exec_ops retr rest (run_searches retr qs store) ra rb := by
  intro qs
  induction qs with
  | nil => intro rest store ra rb; rfl
  | cons q qs' ih => intro rest store ra rb; exact ih _ _ _ _

lemma exec_request_trace (retr : String → List Doc) (rid : Bool) (qs : List String)
    (rest : List (Bool × StoreOp)) (store : List DocEntry)
    (ra rb : Option (List DocEntry)) :
    exec_ops retr (((request_trace qs).map (fun op => (rid, op))) ++ rest) store ra rb =
      exec_ops retr rest (run_searches retr qs [])
        (if rid then ra else some (run_searches retr qs []))
        (if rid then some (run_searches retr qs []) else rb) := by
  have hmap : (request_trace qs).map (fun op => (rid, op)) =
      (rid, StoreOp.clear) ::
        ((qs.map (fun q => (rid, StoreOp.search q))) ++ [(rid, StoreOp.get)]) := by
    simp [request_trace, List.map_map]
  rw [hmap, List.cons_append, List.append_assoc]
  show exec_ops retr ((qs.map (fun q => (rid, StoreOp.search q))) ++
    ([(rid, StoreOp.get)] ++ rest)) [] ra rb = _
  rw [exec_searches]
  cases rid <;> rfl

lemma tag_filter_same (rid : Bool) (ops : List StoreOp) (p : Bool × StoreOp → Bool)
    (hp : ∀ op, p (rid, op) = true) :
    ((ops.map (fun op => (rid, op))).filter p).map Prod.snd = ops := by
  induction ops with
  | nil => rfl
  | cons op rest ih =>
    simp only [List.map_cons, List.filter_cons, hp op, if_true, List.map_cons, ih]

lemma tag_filter_other (rid : Bool) (ops : List StoreOp) (p : Bool × StoreOp → Bool)
    (hp : ∀ op, p (rid, op) = false) :
    (ops.map (fun op => (rid, op))).filter p = [] := by
  induction ops with
  | nil => rfl
  | cons op rest ih =>
    simp only [List.map_cons, List.filter_cons, hp op]
    simpa using ih

lemma mem_foldl_store_add (q : String) (docs : List Doc) :
    ∀ (store : List DocEntry) (e : DocEntry),
      e ∈ docs.foldl (fun st d => store_add st (doc_entry_of q d)) store →
      e ∈ store ∨ e.query = q := by
  induction docs with
  | nil => intro store e h; exact .inl h
  | cons d rest ih =>
    intro store e h
    rcases ih _ e h with h | h
    · rcases mem_store_add h with h | h
      · exact .inl h
      · subst h
        exact .inr rfl
    · exact .inr h

lemma mem_search_store (retr : String → List Doc) (q : String)
    (store : List DocEntry) (e : DocEntry)
    (h : e ∈ (search_maintenance_docs retr store q).1) : e ∈ store ∨ e.query = q := by
  unfold search_maintenance_docs at h
  dsimp only at h
  split at h
  · exact .inl h
  · exact mem_foldl_store_add q _ store e h

lemma mem_run_searches (retr : String → List Doc) (qs : List String) :
    ∀ (store : List DocEntry) (e : DocEntry), e ∈ run_searches retr qs store →
      e ∈ store ∨ e.query ∈ qs := by
  induction qs with
  | nil => intro store e h; exact .inl h
  | cons q rest ih =>
    intro store e h
    rcases ih _ e h with h | h
    · rcases mem_search_store retr q store e h with h | h
      · exact .inl h
      · exact .inr (h ▸ List.mem_cons_self _ _)
    · exact .inr (List.mem_cons_of_mem _ h)

/-- C8 counterexample (closed): the evidence store is one module-level
global; in a concrete interleaving of two requests (B's `clear` between A's
search and A's final read) request A's `get_retrieved_documents()` returns
exactly the passage retrieved for request B's query `"qb"` — one request's
passage appears in the other's accumulated evidence and source list, so the
claimed cross-request isolation fails for concurrently in-flight
requests. -/
theorem spec_C8_shared_store_cex :
    IsInterleaving ["qa"] ["qb"] opsCex ∧
    (exec_ops dInter opsCex [] none none).2.1 = some [entryInterB] ∧
    entryInterB.query = "qb" ∧ "qb" ∉ (["qa"] : List String) := by
  refine ⟨⟨by decide, by decide⟩, by decide, by decide, by decide⟩

/-- C8 amended (proved): `AgentState` is built fresh per request
(`query_rag_agent` constructs `initial_state` per call), but the evidence
store is a module-level global cleared at request start; isolation holds
only for non-overlapping executions: when two requests run back-to-back
(one valid schedule of the interleaving model), each request's final read
returns exactly the store built from its own searches, and every entry of
that store stems from one of that request's own queries. -/
theorem spec_C8_isolation_amended (retr : String → List Doc)
    (qsA qsB : List String) :
    IsInterleaving qsA qsB ((request_trace qsA).map (fun op => ((false : Bool), op)) ++
      (request_trace qsB).map (fun op => ((true : Bool), op))) ∧
    (exec_ops retr ((request_trace qsA).map (fun op => ((false : Bool), op)) ++
      (request_trace qsB).map (fun op => ((true : Bool), op))) [] none none).2.1 =
      some (run_searches retr qsA []) ∧
    (exec_ops retr ((request_trace qsA).map (fun op => ((false : Bool), op)) ++
      (request_trace qsB).map (fun op => ((true : Bool), op))) [] none none).2.2 =
      some (run_searches retr qsB []) ∧
    (∀ e ∈ run_searches retr qsA [], e.query ∈ qsA) ∧
    (∀ e ∈ run_searches retr qsB [], e.query ∈ qsB) := by
  have hA := exec_request_trace retr false qsA
    ((request_trace qsB).map (fun op => ((true : Bool), op))) [] none none
  have hB := exec_request_trace retr true qsB []
    (run_searches retr qsA []) (some (run_searches retr qsA [])) none
  rw [List.append_nil] at hB
  simp only [if_neg Bool.false_ne_true, if_pos rfl] at hA hB
  refine ⟨⟨?_, ?_⟩, ?_, ?_, ?_, ?_⟩
  · rw [List.filter_append, List.map_append,
      tag_filter_same false _ _ (fun op => rfl),
      tag_filter_other true _ _ (fun op => rfl)]
    simp
  · rw [List.filter_append, List.map_append,
      tag_filter_other false _ _ (fun op => rfl),
      tag_filter_same true _ _ (fun op => rfl)]
    simp
  · rw [hA, hB]
    rfl
  · rw [hA, hB]
    rfl
  · intro e he
    rcases mem_run_searches retr qsA [] e he with h | h
    · simp at h
    · exact h
  · intro e he
    rcases mem_run_searches retr qsB [] e he with h | h
    · simp at h
    · exact h

/-- Witness for C8 (amended) at the concrete one-query requests. -/
theorem spec_C8_isolation_amended_witness :
    (exec_ops dInter ((request_trace ["qa"]).map (fun op => ((false : Bool), op)) ++
      (request_trace ["qb"]).map (fun op => ((true : Bool), op))) [] none none).2.1 =
      some (run_searches dInter ["qa"] []) ∧
    entryInterA.query ∈ (["qa"] : List String) :=
  ⟨(spec_C8_isolation_amended dInter ["qa"] ["qb"]).2.1,
   (spec_C8_isolation_amended dInter ["qa"] ["qb"]).2.2.2.1 entryInterA (by decide)⟩

/-! ## Legacy double-expansion theorems (C10) -/

/-- C10 counterexample (closed): the reported `queries_executed` can equal
the retrieval query list even when the Generator's two expansion responses
differ (here `"alt"` versus `" alt "`, which strip to the same query), so
the claim's "equals ... only if the Generator responds identically" is
false as stated. -/
theorem spec_C10_only_if_cex :
    genSeqCex 0 = Except.ok "alt" ∧ genSeqCex 1 = Except.ok " alt " ∧
    ("alt" : String) ≠ " alt " ∧
    (query_rag_legacy genSeqCex retrW (fun _ => "ans") "q" 4 true).1.metadata.queries_executed =
      expand_query (genSeqCex 0) "q" := by
  refine ⟨rfl, rfl, by decide, by decide⟩

/-- C10 amended (proved): in a legacy run with expansion enabled the
expansion generation is invoked exactly twice (and never without
expansion); retrieval uses the first invocation's expansion while the
reported metadata re-expands with the second invocation, so the reported
`queries_executed` equals the retrieval query list whenever the Generator
responds identically on both invocations, and differing responses can make
the two lists diverge — the equality is a determinism property of the
Generator, not guaranteed by the code. -/
theorem spec_C10_double_expansion_amended (genSeq : Nat → Except String String)
    (retr : String → List Doc) (genAnswer : String → String) (qq : String)
    (k : Nat) (r : Except String String) :
    (query_rag_legacy genSeq retr genAnswer qq k true).2 = 2 ∧
    (query_rag_legacy genSeq retr genAnswer qq k false).2 = 0 ∧
    (query_rag_legacy genSeq retr genAnswer qq k true).1.sources =
      (retrieve_with_expansion retr (genSeq 0) qq k).map stream_source_of ∧
    (query_rag_legacy (fun _ => r) retr genAnswer qq k true).1.metadata.queries_executed =
      expand_query r qq ∧
    (query_rag_legacy genSeqDiff retr genAnswer qq k true).1.metadata.queries_executed ≠
      expand_query (genSeqDiff 0) qq := by
  refine ⟨rfl, rfl, rfl, rfl, ?_⟩
  intro h
  have h1 : (query_rag_legacy genSeqDiff retr genAnswer qq k
      true).1.metadata.queries_executed = qq :: ["b"] := rfl
  have h2 : expand_query (genSeqDiff 0) qq = qq :: ["a"] := rfl
  rw [h1, h2] at h
  injection h with h3 h4
  injection h4 with h5 h6
  exact absurd h5 (by decide)

end MaintRag
